import Mathlib

/-
Verification of the task-orchestration core of this repository:
class GeniusAgent in src/aider/genius_mode.py.

The Python task dicts are modelled by the structure Task below.  External
collaborators (the edit coder, the lint and test commands, the planning
model, the filesystem read in the security scan) are modelled as inputs:
an Except value stands for a call that either returns or raises.  All
definitions are direct translations of the corresponding Python methods;
each definition carries a comment naming its source method.
-/

namespace GeniusMode

/-- A task record, modelling the task dicts built by the GeniusAgent planner.
The field ttype models the dict key "type".  Dict keys that are absent on
some task dicts (dependencies, estimated_effort, file, retry_count) are
modelled with default or Option values, matching how the source accesses
them (task.get with a default, or key assignment). -/
structure Task where
  name : String
  ttype : String
  priority : Int
  details : String
  dependencies : List String := []
  estimated_effort : Option String := none
  file : Option String := none
  retry_count : Option Nat := none
deriving DecidableEq

instance : Inhabited Task :=
  ⟨{ name := "", ttype := "", priority := 0, details := "" }⟩

/-- One entry of the issues list built by GeniusAgent._analyze_current_issues.
The itype field models the dict key "type"; priority is the string
"high" / "medium" used there. -/
structure Issue where
  itype : String
  priority : String
  details : String
deriving DecidableEq

/- ------------------------------------------------------------------ -/
/- Dependency resolver: GeniusAgent._resolve_task_dependencies        -/
/- ------------------------------------------------------------------ -/

/-- The ready partition of one resolver pass: tasks of remaining whose
dependency names are all names of already resolved tasks.  Models the
deps_resolved filter in _resolve_task_dependencies. -/
def readyTasks (resolved remaining : List Task) : List Task :=
  remaining.filter
    (fun task => task.dependencies.all (fun d => resolved.any (fun r => r.name == d)))

/-- Python min(remaining, key=priority): scans left to right and keeps the
current element unless a strictly smaller priority appears, so it returns
the first element of minimal priority. -/
def minByPrio (t : Task) : List Task → Task
  | [] => t
  | u :: us => if u.priority < t.priority then minByPrio u us else minByPrio t us

/-- Stable ascending insertion by priority; Python list.sort with the
priority key is a stable ascending sort. -/
def insertByPrio (t : Task) : List Task → List Task
  | [] => [t]
  | u :: us => if t.priority ≤ u.priority then t :: u :: us else u :: insertByPrio t us

/-- Stable sort by ascending priority, modelling ready_tasks.sort(key=priority). -/
def sortByPrio : List Task → List Task
  | [] => []
  | t :: ts => insertByPrio t (sortByPrio ts)

/-- The inner for-loop of one resolver pass: append each ready task to
resolved and remove its first equal occurrence from remaining, exactly as
resolved.append(task) / remaining.remove(task) do. -/
def processReady (resolved remaining : List Task) : List Task → List Task × List Task
  | [] => (resolved, remaining)
  | t :: ts => processReady (resolved ++ [t]) (remaining.erase t) ts

/-- One pass of the while-loop body of _resolve_task_dependencies: compute
the ready tasks, fall back to the single first minimal-priority task when
none is ready, sort the batch by priority, then move the batch from
remaining to resolved. -/
def resolveStep (resolved : List Task) (t : Task) (ts : List Task) : List Task × List Task :=
  let ready := readyTasks resolved (t :: ts)
  let ready2 := if ready.isEmpty then [minByPrio t ts] else ready
  processReady resolved (t :: ts) (sortByPrio ready2)

/-- The while-loop of _resolve_task_dependencies, additionally counting the
number of passes taken.  Termination is by the strictly shrinking length of
remaining, proved inline. -/
def resolveLoopP (resolved remaining : List Task) : List Task × Nat :=
  match remaining with
  | [] => (resolved, 0)
  | t :: ts =>
    let p := resolveStep resolved t ts
    let q := resolveLoopP p.1 p.2
    (q.1, q.2 + 1)
termination_by remaining.length
decreasing_by
  have hple : ∀ (l r m : List Task), (processReady r m l).2.length ≤ m.length := by
    intro l
    induction l with
    | nil => intro r m; exact Nat.le_refl _
    | cons x xs ih =>
      intro r m
      have h1 := ih (r ++ [x]) (m.erase x)
      have h2 : (m.erase x).length ≤ m.length := (List.erase_sublist x m).length_le
      exact Nat.le_trans h1 h2
  have hplt : ∀ (x : Task) (xs r m : List Task), x ∈ m →
      (processReady r m (x :: xs)).2.length < m.length := by
    intro x xs r m hx
    have h1 : (processReady (r ++ [x]) (m.erase x) xs).2.length ≤ (m.erase x).length :=
      hple _ _ _
    have h2 : (m.erase x).length = m.length - 1 := List.length_erase_of_mem hx
    have h3 : 0 < m.length := List.length_pos.mpr (List.ne_nil_of_mem hx)
    show (processReady (r ++ [x]) (m.erase x) xs).2.length < m.length
    omega
  have hinsne : ∀ (u : Task) (l : List Task), insertByPrio u l ≠ [] := by
    intro u l
    cases l with
    | nil => simp [insertByPrio]
    | cons v vs =>
      simp only [insertByPrio]
      by_cases hc : u.priority ≤ v.priority
      · rw [if_pos hc]; simp
      · rw [if_neg hc]; simp
  have hmemins : ∀ (l : List Task) (u x : Task), x ∈ insertByPrio u l → x = u ∨ x ∈ l := by
    intro l
    induction l with
    | nil =>
      intro u x hx
      simp only [insertByPrio, List.mem_singleton] at hx
      exact Or.inl hx
    | cons v vs ih =>
      intro u x hx
      simp only [insertByPrio] at hx
      by_cases hc : u.priority ≤ v.priority
      · rw [if_pos hc] at hx
        exact List.mem_cons.mp hx
      · rw [if_neg hc] at hx
        rcases List.mem_cons.mp hx with h1 | h1
        · rw [h1]; exact Or.inr (List.mem_cons_self _ _)
        · rcases ih u x h1 with h2 | h2
          · exact Or.inl h2
          · exact Or.inr (List.mem_cons_of_mem _ h2)
  have hmemsort : ∀ (l : List Task) (x : Task), x ∈ sortByPrio l → x ∈ l := by
    intro l
    induction l with
    | nil => intro x hx; simp [sortByPrio] at hx
    | cons v vs ih =>
      intro x hx
      simp only [sortByPrio] at hx
      rcases hmemins (sortByPrio vs) v x hx with h | h
      · rw [h]; exact List.mem_cons_self _ _
      · exact List.mem_cons_of_mem _ (ih x h)
  have hsortne : ∀ (l : List Task), l ≠ [] → sortByPrio l ≠ [] := by
    intro l hl
    cases l with
    | nil => exact absurd rfl hl
    | cons v vs => simpa [sortByPrio] using hinsne v (sortByPrio vs)
  have hminmem : ∀ (l : List Task) (a : Task), minByPrio a l ∈ a :: l := by
    intro l
    induction l with
    | nil => intro a; simp [minByPrio]
    | cons u us ih =>
      intro a
      simp only [minByPrio]
      by_cases hc : u.priority < a.priority
      · rw [if_pos hc]
        rcases List.mem_cons.mp (ih u) with h2 | h2
        · rw [h2]; exact List.mem_cons_of_mem _ (List.mem_cons_self _ _)
        · exact List.mem_cons_of_mem _ (List.mem_cons_of_mem _ h2)
      · rw [if_neg hc]
        rcases List.mem_cons.mp (ih a) with h2 | h2
        · rw [h2]; exact List.mem_cons_self _ _
        · exact List.mem_cons_of_mem _ (List.mem_cons_of_mem _ h2)
  have key : ∀ (res : List Task) (a : Task) (l : List Task),
      (resolveStep res a l).2.length < (a :: l).length := by
    intro res a l
    have hready2mem : ∀ x ∈ (if (readyTasks res (a :: l)).isEmpty then
        [minByPrio a l] else readyTasks res (a :: l)), x ∈ a :: l := by
      intro x hx
      by_cases hc : (readyTasks res (a :: l)).isEmpty = true
      · rw [if_pos hc] at hx
        simp only [List.mem_singleton] at hx
        rw [hx]
        exact hminmem l a
      · rw [if_neg hc] at hx
        exact (List.mem_filter.mp hx).1
    have hready2ne : (if (readyTasks res (a :: l)).isEmpty then
        [minByPrio a l] else readyTasks res (a :: l)) ≠ [] := by
      by_cases hc : (readyTasks res (a :: l)).isEmpty = true
      · rw [if_pos hc]; simp
      · rw [if_neg hc]
        intro hnil
        rw [List.isEmpty_iff] at hc
        exact hc hnil
    show (processReady res (a :: l) (sortByPrio (if (readyTasks res (a :: l)).isEmpty then
        [minByPrio a l] else readyTasks res (a :: l)))).2.length < (a :: l).length
    generalize _hB : (if (readyTasks res (a :: l)).isEmpty then
        [minByPrio a l] else readyTasks res (a :: l)) = batch at hready2mem hready2ne
    cases hS : sortByPrio batch with
    | nil => exact absurd hS (hsortne batch hready2ne)
    | cons y ys =>
      have hy : y ∈ a :: l := hready2mem y (hmemsort batch y (by rw [hS]; simp))
      exact hplt y ys res (a :: l) hy
  exact key _ _ _

/-- GeniusAgent._resolve_task_dependencies: the resolved task order. -/
def resolve_task_dependencies (tasks : List Task) : List Task :=
  (resolveLoopP [] tasks).1

/-- Number of while-loop passes _resolve_task_dependencies takes on an input. -/
def numPasses (tasks : List Task) : Nat :=
  (resolveLoopP [] tasks).2

/-- The dependency-respecting order property, tracked relative to the list
of task names already emitted: every dependency name of each task occurs
among the seen names or among the names of the tasks placed before it. -/
def DepsSeenBefore (seen : List String) : List Task → Prop
  | [] => True
  | t :: ts => (∀ d ∈ t.dependencies, d ∈ seen) ∧ DepsSeenBefore (seen ++ [t.name]) ts

/- ------------------------------------------------------------------ -/
/- Planner: _create_task_graph, _parse_llm_planning_response,         -/
/- _llm_based_task_planning                                           -/
/- ------------------------------------------------------------------ -/

/-- The generic default goal set in GeniusAgent.__init__. -/
def defaultGoal : String := "Analyze and improve the codebase"

/-- The priority-1 feature task built from a non-default goal in
_create_task_graph. -/
def goalTask (goal : String) : Task :=
  { name := goal, ttype := "feature_implementation", priority := 1, details := goal }

/-- The priority-2 task built for a critical test issue in _create_task_graph. -/
def fixTestsTask (details : String) : Task :=
  { name := "Fix critical failing tests", ttype := "fix_tests", priority := 2,
    details := details }

/-- The priority-1 improvement task built for the default goal in
_create_task_graph. -/
def improvementTask : Task :=
  { name := "Improve code quality and documentation", ttype := "improvement", priority := 1,
    details := "Review and improve code quality, add documentation where needed" }

/-- GeniusAgent._create_task_graph: the rule-based fallback planner.  The
goal string models self.task (the Python truthiness test on it is the
comparison with the empty string); filesInChat models
repo_context["files_in_chat"]. -/
def create_task_graph (goal : String) (filesInChat : List String) (issues : List Issue) :
    List Task :=
  let tasks1 : List Task := if goal != "" && goal != defaultGoal then [goalTask goal] else []
  let criticalIssues := issues.filter (fun i => i.itype == "test" && i.priority == "high")
  let tasks2 := tasks1 ++
    criticalIssues.filterMap
      (fun i => if i.itype == "test" then some (fixTestsTask i.details) else none)
  let tasks3 := tasks2 ++
    (if goal == defaultGoal && !filesInChat.isEmpty then [improvementTask] else [])
  sortByPrio tasks3

/-- One JSON task object as the LLM planning path reads it: each field is
the dict lookup that task_data.get performs, none when the key is absent. -/
structure RawTask where
  name : Option String
  ttype : Option String
  priority : Option Int
  details : Option String
  dependencies : Option (List String)
  estimated_effort : Option String
  file : Option String

/-- The normalization loop body of _parse_llm_planning_response: fill the
defaults for missing fields, and for a fix_lint task without a file key
fall back to the first file in chat (context_memory lookup). -/
def convertRawTask (filesInChat : List String) (i : Nat) (r : RawTask) : Task :=
  let t : Task :=
    { name := r.name.getD ("Task " ++ toString (i + 1)),
      ttype := r.ttype.getD "improvement",
      priority := r.priority.getD 3,
      details := r.details.getD "",
      dependencies := r.dependencies.getD [],
      estimated_effort := some (r.estimated_effort.getD "medium") }
  match r.file with
  | some f => { t with file := some f }
  | none => if t.ttype == "fix_lint" then { t with file := filesInChat.head? } else t

/-- The hard-coded single fallback task returned by
_parse_llm_planning_response when no JSON array can be extracted or any
step of the parse raises. -/
def fallbackParseTask (selfTask : String) : Task :=
  { name := if selfTask != defaultGoal then selfTask else "Improve codebase",
    ttype := if selfTask != defaultGoal then "feature_implementation" else "improvement",
    priority := 1,
    details := selfTask,
    dependencies := [],
    estimated_effort := some "medium" }

/-- GeniusAgent._parse_llm_planning_response.  The regex extraction plus
json.loads plus the per-entry dict reads are external text processing; its
outcome is the parsed input: ok with the list of raw task objects, or
error when there is no JSON array in the response, the JSON is malformed,
or the conversion raises.  On ok the entries are normalized and ordered by
_resolve_task_dependencies; on any failure the single hard-coded fallback
task is returned. -/
def parse_llm_planning_response (selfTask : String) (filesInChat : List String)
    (parsed : Except String (List RawTask)) : List Task :=
  match parsed with
  | .ok raws =>
    resolve_task_dependencies
      ((raws.enum).map (fun p => convertRawTask filesInChat p.1 p.2))
  | .error _ => [fallbackParseTask selfTask]

/-- The three outcomes of the planning-model call in
_llm_based_task_planning: a falsy or absent response, a raised exception,
or a present response text (carrying its parse outcome). -/
inductive PlanningResponse where
  | noResponse
  | raised (e : String)
  | text (parsed : Except String (List RawTask))

/-- GeniusAgent._llm_based_task_planning: on a present response the parse
result is returned; on an empty response or a raised planning call the
rule-based _create_task_graph result is returned. -/
def llm_based_task_planning (selfTask : String) (filesInChat : List String)
    (issues : List Issue) (resp : PlanningResponse) : List Task :=
  match resp with
  | .noResponse => create_task_graph selfTask filesInChat issues
  | .raised _ => create_task_graph selfTask filesInChat issues
  | .text parsed => parse_llm_planning_response selfTask filesInChat parsed

/- ------------------------------------------------------------------ -/
/- Validator: code_execution_validation_phase, _run_security_scan     -/
/- ------------------------------------------------------------------ -/

/-- One tracked file as the security scan sees it: its name, whether
Path(fname).exists() holds, and the outcome of reading it (error models a
raised open or read). -/
structure ScanFile where
  fname : String
  fileExists : Bool
  content : Except String String

/-- Result dict of _run_security_scan. -/
structure SecurityScanResult where
  passed : Bool
  output : String
deriving DecidableEq

/-- Substring test used to model the Python expression pattern in content. -/
def strContains (content pat : String) : Bool :=
  decide (pat.toList <:+: content.toList)

/-- The per-file body of the scan loop in _run_security_scan: files not
ending in .py are never opened, missing files are skipped, a raised read
is caught and the file skipped, and each of the four risky substrings
contributes one issue line. -/
def fileSecurityIssues (f : ScanFile) : List String :=
  if f.fname.endsWith ".py" then
    if f.fileExists then
      match f.content with
      | .error _ => []
      | .ok content =>
        (if strContains content "eval(" then
          [f.fname ++ ": Use of eval() detected - potential security risk"] else []) ++
        (if strContains content "exec(" then
          [f.fname ++ ": Use of exec() detected - potential security risk"] else []) ++
        (if strContains content "shell=True" then
          [f.fname ++ ": shell=True in subprocess - potential security risk"] else []) ++
        (if strContains content "pickle.loads" then
          [f.fname ++ ": pickle.loads() detected - potential security risk"] else [])
    else []
  else []

/-- GeniusAgent._run_security_scan over the tracked files self.coder.abs_fnames. -/
def run_security_scan (files : List ScanFile) : SecurityScanResult :=
  let issues := (files.map fileSecurityIssues).flatten
  { passed := issues.isEmpty,
    output := if issues.isEmpty then "No security issues detected"
              else String.intercalate "\n" issues }

/-- The validation_results dict of code_execution_validation_phase. -/
structure ValidationResults where
  lint_passed : Bool
  tests_passed : Bool
  security_passed : Bool
  lint_output : Option String
  test_output : Option String
  security_output : Option String
deriving DecidableEq

/-- The configuration read by the validation phase: coder.auto_lint,
coder.auto_test, coder.test_cmd (the empty string models an unset
command, matching the Python truthiness test), and enable_security_scan. -/
structure ValidationConfig where
  autoLint : Bool
  autoTest : Bool
  testCmd : String
  enableSecurityScan : Bool

/-- Outcomes of the external calls one validation pass makes: the lint
command (ok carries lint_outcome is-not-False), the test command (ok
carries the cmd_test return, none meaning success), and the tracked files
the security scan reads. -/
structure CheckCalls where
  lintCall : Except String Bool
  testCall : Except String (Option String)
  files : List ScanFile

/-- The dict code_execution_validation_phase starts from. -/
def initialValidationResults : ValidationResults :=
  { lint_passed := true, tests_passed := true, security_passed := true,
    lint_output := none, test_output := none, security_output := none }

/-- GeniusAgent.code_execution_validation_phase: run lint (when auto_lint
and there are tracked files), tests (when auto_test and a test command is
set), and the security scan (when enabled), each exception caught and
recorded against its own check, and return overall success as the
conjunction of the three verdicts together with the results dict. -/
def code_execution_validation_phase (cfg : ValidationConfig) (calls : CheckCalls) :
    Bool × ValidationResults :=
  let vr0 := initialValidationResults
  let vr1 :=
    if cfg.autoLint && !calls.files.isEmpty then
      match calls.lintCall with
      | .ok lintOutcomeOk =>
        { vr0 with lint_passed := lintOutcomeOk,
                   lint_output := if lintOutcomeOk then none
                                  else some "Linting issues detected" }
      | .error e => { vr0 with lint_passed := false, lint_output := some e }
    else vr0
  let vr2 :=
    if cfg.autoTest && cfg.testCmd != "" then
      match calls.testCall with
      | .ok testOutput =>
        { vr1 with tests_passed := testOutput.isNone, test_output := testOutput }
      | .error e => { vr1 with tests_passed := false, test_output := some e }
    else vr1
  let vr3 :=
    if cfg.enableSecurityScan then
      let sec := run_security_scan calls.files
      { vr2 with security_passed := sec.passed, security_output := some sec.output }
    else vr2
  (vr3.lint_passed && vr3.tests_passed && vr3.security_passed, vr3)

/- ------------------------------------------------------------------ -/
/- Orchestrator loop: run, _get_next_task, _handle_validation_failure -/
/- ------------------------------------------------------------------ -/

/-- The mutable agent state of GeniusAgent that the run loop touches. -/
structure AgentState where
  task_graph : List Task
  completed_tasks : List Task
  failed_tasks : List Task
  last_error_context : Option String
  validation_results : Option ValidationResults
  current_iteration : Nat
deriving DecidableEq

/-- The state right after planning produced a task graph. -/
def initState (graph : List Task) : AgentState :=
  { task_graph := graph, completed_tasks := [], failed_tasks := [],
    last_error_context := none, validation_results := none, current_iteration := 0 }

/-- GeniusAgent._get_next_task: the first task of the graph, in resolved
order, that is in neither the completed nor the failed list (membership by
dict equality, like the Python in operator).  Returns its index so that a
later key assignment on the same dict object is an update at this index. -/
def get_next_task : List Task → List Task → List Task → Option Nat
  | [], _, _ => none
  | t :: ts, completed, failed =>
    if !completed.contains t && !failed.contains t then some 0
    else (get_next_task ts completed failed).map (fun i => i + 1)

/-- Models getattr(task, "retry_count", 0) in _handle_validation_failure.
The tasks are plain dicts, whose items are not object attributes, so this
getattr never finds the attribute and always returns the default 0 (the
value stored under the dict key "retry_count" is never read). -/
def getattrRetryCount (_task : Task) : Nat := 0

/-- Python truthiness of an optional diagnostic string: present and
non-empty. -/
def truthyStrOpt : Option String → Bool
  | some s => s != ""
  | none => false

/-- The error_messages list built by _handle_validation_failure: one
labelled entry for each truthy diagnostic output. -/
def errorMessages (vd : ValidationResults) : List String :=
  (if truthyStrOpt vd.lint_output then
    ["Lint errors: " ++ vd.lint_output.getD ""] else []) ++
  (if truthyStrOpt vd.test_output then
    ["Test failures: " ++ vd.test_output.getD ""] else []) ++
  (if truthyStrOpt vd.security_output then
    ["Security issues: " ++ vd.security_output.getD ""] else [])

/-- GeniusAgent._handle_validation_failure on the task at index i of the
graph: store the joined error context, then either write retry_count + 1
into the task dict (the retry branch) or append the task to failed_tasks
(the abandon branch), the branch chosen by getattrRetryCount. -/
def handle_validation_failure (st : AgentState) (i : Nat) (vd : ValidationResults) :
    AgentState :=
  let lec := some (String.intercalate " | " (errorMessages vd))
  let t := st.task_graph.getD i default
  let retryCount := getattrRetryCount t
  if retryCount < 2 then
    { st with last_error_context := lec,
              task_graph := st.task_graph.set i { t with retry_count := some (retryCount + 1) } }
  else
    { st with last_error_context := lec,
              failed_tasks := st.failed_tasks ++ [t] }

/-- The per-iteration external world of the run loop: the outcome of the
coder.run call of iteration k (error models a raised edit), and the
validation collaborator outcomes of iteration k. -/
structure RunEnv where
  execOutcome : Nat → Except String Unit
  calls : Nat → CheckCalls

/-- One iteration of the for-loop in GeniusAgent.run: bump the iteration
counter, pick the next non-terminal task (true in the second component
means the break on an empty queue), run the edit phase (a raised edit
moves the task straight to failed_tasks and records the error context),
then validate; on overall success complete the task and clear the error
context, otherwise hand the task to _handle_validation_failure. -/
def run_iteration (env : RunEnv) (cfg : ValidationConfig) (st0 : AgentState) :
    AgentState × Bool :=
  let st := { st0 with current_iteration := st0.current_iteration + 1 }
  match get_next_task st.task_graph st.completed_tasks st.failed_tasks with
  | none => (st, true)
  | some i =>
    let t := st.task_graph.getD i default
    match env.execOutcome st.current_iteration with
    | .error e =>
      ({ st with failed_tasks := st.failed_tasks ++ [t], last_error_context := some e }, false)
    | .ok _ =>
      let res := code_execution_validation_phase cfg (env.calls st.current_iteration)
      let st1 := { st with validation_results := some res.2 }
      if res.1 then
        ({ st1 with completed_tasks := st1.completed_tasks ++ [t],
                    last_error_context := none }, false)
      else
        (handle_validation_failure st1 i res.2, false)

/-- The bounded for-loop of GeniusAgent.run over max_iterations. -/
def run_loop (env : RunEnv) (cfg : ValidationConfig) (st : AgentState) : Nat → AgentState
  | 0 => st
  | fuel + 1 =>
    let p := run_iteration env cfg st
    if p.2 then p.1 else run_loop env cfg p.1 fuel

/-- GeniusAgent.run after the planning phase: planned is the planning
outcome (none when no goal was supplied, otherwise the produced graph; an
empty graph makes planning_phase return False and run abort).  Returns the
run-success boolean together with the final state. -/
def runAgent (env : RunEnv) (cfg : ValidationConfig) (maxIterations : Nat)
    (planned : Option (List Task)) : Bool × AgentState :=
  match planned with
  | none => (false, initState [])
  | some graph =>
    if graph.isEmpty then (false, initState graph)
    else
      let stF := run_loop env cfg (initState graph) maxIterations
      (!stF.completed_tasks.isEmpty &&
        (match stF.validation_results with
         | none => true
         | some vr => vr.tests_passed && vr.security_passed), stF)

/- ------------------------------------------------------------------ -/
/- Concrete instances used to evaluate the definitions                -/
/- ------------------------------------------------------------------ -/

/-- A concrete task named A that depends on B (half of a dependency cycle). -/
def taskCycleA : Task :=
  { name := "A", ttype := "refactor", priority := 2, details := "a", dependencies := ["B"] }

/-- A concrete task named B that depends on A (half of a dependency cycle). -/
def taskCycleB : Task :=
  { name := "B", ttype := "refactor", priority := 1, details := "b", dependencies := ["A"] }

/-- A concrete validation configuration with lint and tests enabled. -/
def cfgValidatorW : ValidationConfig :=
  { autoLint := true, autoTest := true, testCmd := "pytest", enableSecurityScan := false }

/-- A concrete tracked file with harmless content. -/
def fileW : ScanFile :=
  { fname := "a.py", fileExists := true, content := Except.ok "print(1)" }

/-- Concrete collaborator outcomes with all checks succeeding. -/
def callsValidatorW : CheckCalls :=
  { lintCall := Except.ok true, testCall := Except.ok none, files := [fileW] }

/-- A concrete high-priority test issue. -/
def issueTestHigh : Issue :=
  { itype := "test", priority := "high", details := "2 tests failed" }

/-- A configuration with only the security scan enabled. -/
def cfgScanOn : ValidationConfig :=
  { autoLint := false, autoTest := false, testCmd := "", enableSecurityScan := true }

/-- A tracked Python file whose read raises. -/
def fileReadError : ScanFile :=
  { fname := "bad.py", fileExists := true, content := Except.error "read boom" }

/-- Collaborator outcomes whose only tracked file raises on read. -/
def callsScanError : CheckCalls :=
  { lintCall := Except.ok true, testCall := Except.ok none, files := [fileReadError] }

/-- A concrete task named B that depends on A (acyclic instance). -/
def taskDepB : Task :=
  { name := "B", ttype := "refactor", priority := 1, details := "b", dependencies := ["A"] }

/-- A concrete dependency-free task named A (acyclic instance). -/
def taskDepA : Task :=
  { name := "A", ttype := "refactor", priority := 2, details := "a" }

/-- A concrete dependency-free priority-1 task named A for run scenarios. -/
def taskExecA : Task :=
  { name := "A", ttype := "feature_implementation", priority := 1, details := "implement A" }

/-- A concrete priority-2 task named B that depends on A for run scenarios. -/
def taskExecB : Task :=
  { name := "B", ttype := "feature_implementation", priority := 2, details := "implement B",
    dependencies := ["A"] }

/-- A concrete single retryable task for the retry-cap scenario. -/
def taskRetry : Task :=
  { name := "t", ttype := "fix_tests", priority := 1, details := "fix the tests" }

/-- A configuration with every validation check disabled. -/
def cfgAllOff : ValidationConfig :=
  { autoLint := false, autoTest := false, testCmd := "", enableSecurityScan := false }

/-- A configuration with only the test check enabled. -/
def cfgTestsOn : ValidationConfig :=
  { autoLint := false, autoTest := true, testCmd := "pytest", enableSecurityScan := false }

/-- Collaborator outcomes where every check succeeds. -/
def callsTrivial : CheckCalls :=
  { lintCall := Except.ok true, testCall := Except.ok none, files := [] }

/-- Collaborator outcomes where the test command reports failures. -/
def callsTestsFail : CheckCalls :=
  { lintCall := Except.ok true, testCall := Except.ok (some "assert failed"), files := [] }

/-- A run environment whose first edit call raises and all later calls
succeed, with trivially passing validation collaborators. -/
def envFailFirstExec : RunEnv :=
  { execOutcome := fun k => if k = 1 then Except.error "edit failed" else Except.ok (),
    calls := fun _ => callsTrivial }

/-- A run environment where every edit call succeeds and the test command
always reports failures. -/
def envTestsFail : RunEnv :=
  { execOutcome := fun _ => Except.ok (), calls := fun _ => callsTestsFail }

/-- A run environment where every collaborator call succeeds. -/
def envAllOk : RunEnv :=
  { execOutcome := fun _ => Except.ok (), calls := fun _ => callsTrivial }

/-- A concrete failed validation whose only diagnostic payload is the empty
string (a test command that raised with an empty message). -/
def vdEmptyTestFail : ValidationResults :=
  { lint_passed := true, tests_passed := false, security_passed := true,
    lint_output := none, test_output := some "", security_output := none }

/- ------------------------------------------------------------------ -/
/- Helper lemmas about the dependency resolver                        -/
/- ------------------------------------------------------------------ -/

theorem processReady_length_le (l r m : List Task) :
    (processReady r m l).2.length ≤ m.length := by
  induction l generalizing r m with
  | nil => exact Nat.le_refl _
  | cons x xs ih =>
    have h1 := ih (r ++ [x]) (m.erase x)
    have h2 : (m.erase x).length ≤ m.length := (List.erase_sublist x m).length_le
    exact Nat.le_trans h1 h2

theorem processReady_length_lt (x : Task) (xs r m : List Task) (hx : x ∈ m) :
    (processReady r m (x :: xs)).2.length < m.length := by
  have h1 : (processReady (r ++ [x]) (m.erase x) xs).2.length ≤ (m.erase x).length :=
    processReady_length_le _ _ _
  have h2 : (m.erase x).length = m.length - 1 := List.length_erase_of_mem hx
  have h3 : 0 < m.length := List.length_pos.mpr (List.ne_nil_of_mem hx)
  show (processReady (r ++ [x]) (m.erase x) xs).2.length < m.length
  omega

theorem insertByPrio_perm (t : Task) (l : List Task) :
    List.Perm (insertByPrio t l) (t :: l) := by
  induction l with
  | nil => simp [insertByPrio]
  | cons u us ih =>
    simp only [insertByPrio]
    by_cases hc : t.priority ≤ u.priority
    · rw [if_pos hc]
    · rw [if_neg hc]
      exact (ih.cons u).trans (List.Perm.swap t u us)

theorem sortByPrio_perm (l : List Task) : List.Perm (sortByPrio l) l := by
  induction l with
  | nil => simp [sortByPrio]
  | cons t ts ih =>
    simp only [sortByPrio]
    exact (insertByPrio_perm t (sortByPrio ts)).trans (ih.cons t)

theorem sortByPrio_mem (l : List Task) (x : Task) : x ∈ sortByPrio l ↔ x ∈ l :=
  (sortByPrio_perm l).mem_iff

theorem sortByPrio_ne_nil (l : List Task) (hl : l ≠ []) : sortByPrio l ≠ [] := by
  intro hS
  have h := sortByPrio_perm l
  rw [hS] at h
  exact hl h.symm.eq_nil

theorem minByPrio_mem (l : List Task) (a : Task) : minByPrio a l ∈ a :: l := by
  induction l generalizing a with
  | nil => simp [minByPrio]
  | cons u us ih =>
    simp only [minByPrio]
    by_cases hc : u.priority < a.priority
    · rw [if_pos hc]
      rcases List.mem_cons.mp (ih u) with h2 | h2
      · rw [h2]; exact List.mem_cons_of_mem _ (List.mem_cons_self _ _)
      · exact List.mem_cons_of_mem _ (List.mem_cons_of_mem _ h2)
    · rw [if_neg hc]
      rcases List.mem_cons.mp (ih a) with h2 | h2
      · rw [h2]; exact List.mem_cons_self _ _
      · exact List.mem_cons_of_mem _ (List.mem_cons_of_mem _ h2)

theorem minByPrio_le (l : List Task) (a : Task) :
    ∀ u ∈ a :: l, (minByPrio a l).priority ≤ u.priority := by
  induction l generalizing a with
  | nil =>
    intro u hu
    rcases List.mem_cons.mp hu with h | h
    · rw [h]; exact le_refl _
    · simp at h
  | cons v vs ih =>
    intro u hu
    simp only [minByPrio]
    by_cases hc : v.priority < a.priority
    · rw [if_pos hc]
      rcases List.mem_cons.mp hu with h | h
      · rw [h]
        have h1 : (minByPrio v vs).priority ≤ v.priority :=
          ih v v (List.mem_cons_self _ _)
        exact le_trans h1 (le_of_lt hc)
      · exact ih v u h
    · rw [if_neg hc]
      rcases List.mem_cons.mp hu with h | h
      · rw [h]; exact ih a a (List.mem_cons_self _ _)
      · rcases List.mem_cons.mp h with h2 | h2
        · rw [h2]
          have h1 : (minByPrio a vs).priority ≤ a.priority :=
            ih a a (List.mem_cons_self _ _)
          exact le_trans h1 (not_lt.mp hc)
        · exact ih a u (List.mem_cons.mpr (Or.inr h2))

theorem processReady_perm (l r m : List Task)
    (hcnt : ∀ x : Task, l.count x ≤ m.count x) :
    List.Perm ((processReady r m l).1 ++ (processReady r m l).2) (r ++ m) := by
  induction l generalizing r m with
  | nil => exact List.Perm.refl _
  | cons x xs ih =>
    have hx : x ∈ m := by
      have h1 := hcnt x
      rw [List.count_cons_self] at h1
      exact List.count_pos_iff.mp (by omega)
    have hcnt2 : ∀ y : Task, xs.count y ≤ (m.erase x).count y := by
      intro y
      by_cases hy : y = x
      · subst hy
        have h1 := hcnt y
        rw [List.count_cons_self] at h1
        rw [List.count_erase_self]
        omega
      · rw [List.count_erase_of_ne hy]
        have h1 := hcnt y
        rw [List.count_cons_of_ne hy] at h1
        exact h1
    have h2 := ih (r ++ [x]) (m.erase x) hcnt2
    have h3 : (r ++ [x]) ++ m.erase x = r ++ (x :: m.erase x) := by
      rw [List.append_assoc]; rfl
    rw [h3] at h2
    exact h2.trans ((List.perm_cons_erase hx).symm.append_left r)

theorem readyTasks_count_le (res rem : List Task) (x : Task) :
    (readyTasks res rem).count x ≤ rem.count x :=
  (List.filter_sublist rem).count_le x

theorem resolveStep_batch_count (res : List Task) (a : Task) (l : List Task) :
    ∀ x : Task,
      (sortByPrio (if (readyTasks res (a :: l)).isEmpty then [minByPrio a l]
        else readyTasks res (a :: l))).count x ≤ (a :: l).count x := by
  intro x
  rw [(sortByPrio_perm _).count_eq]
  by_cases hc : (readyTasks res (a :: l)).isEmpty = true
  · rw [if_pos hc]
    by_cases hx : x = minByPrio a l
    · rw [hx]
      have h1 : 0 < (a :: l).count (minByPrio a l) :=
        List.count_pos_iff.mpr (minByPrio_mem l a)
      have h2 : ([minByPrio a l] : List Task).count (minByPrio a l) = 1 := by simp
      omega
    · have h2 : ([minByPrio a l] : List Task).count x = 0 :=
        List.count_eq_zero.mpr (by simp [hx])
      rw [h2]
      exact Nat.zero_le _
  · rw [if_neg hc]
    exact readyTasks_count_le res (a :: l) x

theorem resolveStep_perm (res : List Task) (a : Task) (l : List Task) :
    List.Perm ((resolveStep res a l).1 ++ (resolveStep res a l).2) (res ++ (a :: l)) := by
  exact processReady_perm _ res (a :: l) (resolveStep_batch_count res a l)

theorem resolveStep_snd_lt (res : List Task) (a : Task) (l : List Task) :
    (resolveStep res a l).2.length < (a :: l).length := by
  have hbatchne : (if (readyTasks res (a :: l)).isEmpty then [minByPrio a l]
      else readyTasks res (a :: l)) ≠ [] := by
    by_cases hc : (readyTasks res (a :: l)).isEmpty = true
    · rw [if_pos hc]; simp
    · rw [if_neg hc]
      intro hnil
      rw [List.isEmpty_iff] at hc
      exact hc hnil
  have hbatchmem : ∀ x ∈ (if (readyTasks res (a :: l)).isEmpty then [minByPrio a l]
      else readyTasks res (a :: l)), x ∈ a :: l := by
    intro x hx
    by_cases hc : (readyTasks res (a :: l)).isEmpty = true
    · rw [if_pos hc] at hx
      simp only [List.mem_singleton] at hx
      rw [hx]
      exact minByPrio_mem l a
    · rw [if_neg hc] at hx
      exact (List.mem_filter.mp hx).1
  show (processReady res (a :: l) (sortByPrio _)).2.length < (a :: l).length
  generalize _hB : (if (readyTasks res (a :: l)).isEmpty then [minByPrio a l]
      else readyTasks res (a :: l)) = batch at hbatchne hbatchmem
  cases hS : sortByPrio batch with
  | nil => exact absurd hS (sortByPrio_ne_nil batch hbatchne)
  | cons y ys =>
    have hy : y ∈ a :: l :=
      hbatchmem y ((sortByPrio_mem batch y).mp (by rw [hS]; simp))
    exact processReady_length_lt y ys res (a :: l) hy

theorem resolveLoopP_nil (res : List Task) : resolveLoopP res [] = (res, 0) := by
  rw [resolveLoopP]

theorem resolveLoopP_cons (res : List Task) (a : Task) (l : List Task) :
    resolveLoopP res (a :: l) =
      ((resolveLoopP (resolveStep res a l).1 (resolveStep res a l).2).1,
       (resolveLoopP (resolveStep res a l).1 (resolveStep res a l).2).2 + 1) := by
  rw [resolveLoopP]

theorem resolveLoopP_perm :
    ∀ (n : Nat) (rem res : List Task), rem.length ≤ n →
      List.Perm (resolveLoopP res rem).1 (res ++ rem) := by
  intro n
  induction n with
  | zero =>
    intro rem res hn
    have : rem = [] := List.length_eq_zero.mp (Nat.le_zero.mp hn)
    subst this
    rw [resolveLoopP_nil]
    simp
  | succ n ih =>
    intro rem res hn
    cases rem with
    | nil =>
      rw [resolveLoopP_nil]
      simp
    | cons a l =>
      rw [resolveLoopP_cons]
      have hlt := resolveStep_snd_lt res a l
      have hle : (resolveStep res a l).2.length ≤ n := by
        simp only [List.length_cons] at hlt hn
        omega
      have h1 := ih (resolveStep res a l).2 (resolveStep res a l).1 hle
      exact h1.trans (resolveStep_perm res a l)

theorem resolveLoopP_passes :
    ∀ (n : Nat) (rem res : List Task), rem.length ≤ n →
      (resolveLoopP res rem).2 ≤ rem.length := by
  intro n
  induction n with
  | zero =>
    intro rem res hn
    have : rem = [] := List.length_eq_zero.mp (Nat.le_zero.mp hn)
    subst this
    rw [resolveLoopP_nil]
    exact Nat.le_refl 0
  | succ n ih =>
    intro rem res hn
    cases rem with
    | nil =>
      rw [resolveLoopP_nil]
      exact Nat.le_refl 0
    | cons a l =>
      have hlt := resolveStep_snd_lt res a l
      have hle : (resolveStep res a l).2.length ≤ n := by
        simp only [List.length_cons] at hlt hn
        omega
      have h1 := ih (resolveStep res a l).2 (resolveStep res a l).1 hle
      have h2 : (resolveLoopP res (a :: l)).2 =
          (resolveLoopP (resolveStep res a l).1 (resolveStep res a l).2).2 + 1 := by
        rw [resolveLoopP_cons]
      rw [h2]
      simp only [List.length_cons] at hlt ⊢
      omega

theorem resolveStep_forced (res : List Task) (a : Task) (l : List Task)
    (hready : readyTasks res (a :: l) = []) :
    resolveStep res a l =
      (res ++ [minByPrio a l], (a :: l).erase (minByPrio a l)) := by
  simp [resolveStep, hready, sortByPrio, insertByPrio, processReady]

/-- Claim C3: for every finite list of n tasks, including lists whose
declared dependencies form a cycle or name a nonexistent task, the resolver
terminates in at most n passes and returns a total order containing all n
input tasks, none dropped and none duplicated; and when no task is ready on
a pass it forces ready exactly one task, the first one with the lowest
priority number among the remaining set. -/
theorem resolver_termination_and_totality (tasks : List Task) :
    numPasses tasks ≤ tasks.length ∧
    List.Perm (resolve_task_dependencies tasks) tasks ∧
    (∀ (res : List Task) (a : Task) (l : List Task),
      readyTasks res (a :: l) = [] →
        resolveStep res a l =
          (res ++ [minByPrio a l], (a :: l).erase (minByPrio a l)) ∧
        ∀ u ∈ a :: l, (minByPrio a l).priority ≤ u.priority) := by
  refine ⟨?_, ?_, ?_⟩
  · exact resolveLoopP_passes tasks.length tasks [] (Nat.le_refl _)
  · have h := resolveLoopP_perm tasks.length tasks [] (Nat.le_refl _)
    simpa [resolve_task_dependencies] using h
  · intro res a l hready
    exact ⟨resolveStep_forced res a l hready, minByPrio_le l a⟩

/-- Witness for C3 on a concrete two-task dependency cycle. -/
theorem resolver_termination_and_totality_witness :
    numPasses [taskCycleA, taskCycleB] ≤ 2 ∧
    readyTasks [] [taskCycleA, taskCycleB] = [] ∧
    resolveStep [] taskCycleA [taskCycleB] =
      ([] ++ [minByPrio taskCycleA [taskCycleB]],
       ([taskCycleA, taskCycleB]).erase (minByPrio taskCycleA [taskCycleB])) := by
  refine ⟨(resolver_termination_and_totality [taskCycleA, taskCycleB]).1, by decide, ?_⟩
  exact ((resolver_termination_and_totality [taskCycleA, taskCycleB]).2.2
    [] taskCycleA [taskCycleB] (by decide)).1

/- ------------------------------------------------------------------ -/
/- Dependency-respecting order (claim C4)                             -/
/- ------------------------------------------------------------------ -/

theorem depsSeen_append_one :
    ∀ (r : List Task) (s : List String) (t : Task),
      DepsSeenBefore s r → (∀ d ∈ t.dependencies, d ∈ s ++ r.map Task.name) →
      DepsSeenBefore s (r ++ [t]) := by
  intro r
  induction r with
  | nil =>
    intro s t _ h2
    refine ⟨?_, trivial⟩
    intro d hd
    simpa using h2 d hd
  | cons u r' ih =>
    intro s t h1 h2
    obtain ⟨hu, hr'⟩ := h1
    refine ⟨hu, ?_⟩
    apply ih (s ++ [u.name]) t hr'
    intro d hd
    have h3 := h2 d hd
    simp only [List.map_cons, List.mem_append, List.mem_cons, List.mem_singleton] at h3 ⊢
    tauto

theorem processReady_fst_depsSeen :
    ∀ (l r m : List Task),
      DepsSeenBefore [] r → (∀ u ∈ l, ∀ d ∈ u.dependencies, d ∈ r.map Task.name) →
      DepsSeenBefore [] (processReady r m l).1 := by
  intro l
  induction l with
  | nil => intro r m h1 _; exact h1
  | cons x xs ih =>
    intro r m h1 h2
    apply ih (r ++ [x]) (m.erase x)
    · apply depsSeen_append_one r [] x h1
      intro d hd
      simpa using h2 x (List.mem_cons_self _ _) d hd
    · intro u hu d hd
      have h3 := h2 u (List.mem_cons_of_mem _ hu) d hd
      simp only [List.map_append, List.mem_append]
      exact Or.inl h3

theorem exists_min_rank (f : Task → Nat) :
    ∀ (l : List Task), l ≠ [] → ∃ m ∈ l, ∀ u ∈ l, f m ≤ f u := by
  intro l
  induction l with
  | nil => intro h; exact absurd rfl h
  | cons a l ih =>
    intro _
    cases l with
    | nil =>
      refine ⟨a, List.mem_cons_self _ _, ?_⟩
      intro u hu
      rcases List.mem_cons.mp hu with h | h
      · rw [h]
      · simp at h
    | cons b l' =>
      obtain ⟨m, hm, hmin⟩ := ih (by simp)
      by_cases hc : f a ≤ f m
      · refine ⟨a, List.mem_cons_self _ _, ?_⟩
        intro u hu
        rcases List.mem_cons.mp hu with h | h
        · rw [h]
        · exact le_trans hc (hmin u h)
      · refine ⟨m, List.mem_cons_of_mem _ hm, ?_⟩
        intro u hu
        rcases List.mem_cons.mp hu with h | h
        · rw [h]; exact le_of_lt (not_le.mp hc)
        · exact hmin u h

/-- Under an acyclicity witness (a rank strictly decreasing along the
dependency edges) and closed dependency names, some remaining task is
always ready, so the forced cycle-break branch never fires. -/
theorem ready_exists (tasks : List Task) (rank : String → Nat)
    (hclosed : ∀ u ∈ tasks, ∀ d ∈ u.dependencies, ∃ v ∈ tasks, v.name = d)
    (hrank : ∀ u ∈ tasks, ∀ d ∈ u.dependencies, rank d < rank u.name)
    (resolved rem : List Task) (hperm : List.Perm (resolved ++ rem) tasks)
    (hne : rem ≠ []) :
    readyTasks resolved rem ≠ [] := by
  obtain ⟨m, hm, hmin⟩ := exists_min_rank (fun t => rank t.name) rem hne
  have hmtasks : m ∈ tasks := hperm.mem_iff.mp (List.mem_append.mpr (Or.inr hm))
  suffices hs : m ∈ readyTasks resolved rem from List.ne_nil_of_mem hs
  simp only [readyTasks, List.mem_filter, List.all_eq_true, List.any_eq_true, beq_iff_eq]
  refine ⟨hm, ?_⟩
  intro d hd
  obtain ⟨v, hv, hvname⟩ := hclosed m hmtasks d hd
  have hvres : v ∈ resolved := by
    rcases List.mem_append.mp (hperm.symm.mem_iff.mp hv) with h | h
    · exact h
    · exfalso
      have h1 : rank m.name ≤ rank v.name := hmin v h
      have h2 : rank d < rank m.name := hrank m hmtasks d hd
      rw [hvname] at h1
      omega
  exact ⟨v, hvres, hvname⟩

theorem resolveLoop_depsSeen (tasks : List Task) (rank : String → Nat)
    (hclosed : ∀ u ∈ tasks, ∀ d ∈ u.dependencies, ∃ v ∈ tasks, v.name = d)
    (hrank : ∀ u ∈ tasks, ∀ d ∈ u.dependencies, rank d < rank u.name) :
    ∀ (n : Nat) (rem res : List Task), rem.length ≤ n →
      List.Perm (res ++ rem) tasks → DepsSeenBefore [] res →
      DepsSeenBefore [] (resolveLoopP res rem).1 := by
  intro n
  induction n with
  | zero =>
    intro rem res hn _ hres
    have : rem = [] := List.length_eq_zero.mp (Nat.le_zero.mp hn)
    subst this
    rw [resolveLoopP_nil]
    exact hres
  | succ n ih =>
    intro rem res hn hperm hres
    cases rem with
    | nil =>
      rw [resolveLoopP_nil]
      exact hres
    | cons a l =>
      have hready : readyTasks res (a :: l) ≠ [] :=
        ready_exists tasks rank hclosed hrank res (a :: l) hperm (by simp)
      have hreadyb : ¬(readyTasks res (a :: l)).isEmpty = true := by
        rw [List.isEmpty_iff]
        exact hready
      have hstep : resolveStep res a l =
          processReady res (a :: l) (sortByPrio (readyTasks res (a :: l))) := by
        simp only [resolveStep]
        rw [if_neg hreadyb]
      have hgood2 : DepsSeenBefore [] (resolveStep res a l).1 := by
        rw [hstep]
        apply processReady_fst_depsSeen _ res (a :: l) hres
        intro u hu d hd
        have hu2 : u ∈ readyTasks res (a :: l) := (sortByPrio_mem _ u).mp hu
        have h2 := (List.mem_filter.mp hu2).2
        rw [List.all_eq_true] at h2
        have h3 := h2 d hd
        rw [List.any_eq_true] at h3
        obtain ⟨v, hv, hveq⟩ := h3
        rw [List.mem_map]
        exact ⟨v, hv, beq_iff_eq.mp hveq⟩
      have hperm2 : List.Perm ((resolveStep res a l).1 ++ (resolveStep res a l).2) tasks :=
        (resolveStep_perm res a l).trans hperm
      have hlt := resolveStep_snd_lt res a l
      have hle : (resolveStep res a l).2.length ≤ n := by
        simp only [List.length_cons] at hlt hn
        omega
      have h4 := ih (resolveStep res a l).2 (resolveStep res a l).1 hle hperm2 hgood2
      have h5 : (resolveLoopP res (a :: l)).1 =
          (resolveLoopP (resolveStep res a l).1 (resolveStep res a l).2).1 := by
        rw [resolveLoopP_cons]
      rw [h5]
      exact h4

theorem depsSeen_take (l : List Task) :
    ∀ (s : List String), DepsSeenBefore s l →
      ∀ (i : Nat) (hi : i < l.length), ∀ d ∈ (l.get ⟨i, hi⟩).dependencies,
        d ∈ s ∨ d ∈ (l.take i).map Task.name := by
  induction l with
  | nil =>
    intro s _ i hi
    simp at hi
  | cons u ts ih =>
    intro s h i hi d hd
    obtain ⟨h1, h2⟩ := h
    cases i with
    | zero =>
      left
      exact h1 d hd
    | succ j =>
      have hj : j < ts.length := by simpa using hi
      have hget : (u :: ts).get ⟨j + 1, hi⟩ = ts.get ⟨j, hj⟩ := rfl
      rw [hget] at hd
      have h3 := ih (s ++ [u.name]) h2 j hj d hd
      have htake : (u :: ts).take (j + 1) = u :: ts.take j := rfl
      rw [htake]
      simp only [List.mem_append, List.mem_singleton, List.map_cons, List.mem_cons] at h3 ⊢
      tauto

/-- Claim C4: for every list of tasks whose dependency relation is acyclic
(witnessed by a rank on names strictly decreasing along every dependency
edge) and whose dependency names all refer to tasks in the list, the
resolved output never places a task before any of its dependencies: every
dependency name of the task at position i is the name of some task placed
at a position before i. -/
theorem resolver_respects_dependencies (tasks : List Task) (rank : String → Nat)
    (hclosed : ∀ u ∈ tasks, ∀ d ∈ u.dependencies, ∃ v ∈ tasks, v.name = d)
    (hrank : ∀ u ∈ tasks, ∀ d ∈ u.dependencies, rank d < rank u.name) :
    ∀ (i : Nat) (hi : i < (resolve_task_dependencies tasks).length),
      ∀ d ∈ ((resolve_task_dependencies tasks).get ⟨i, hi⟩).dependencies,
        d ∈ ((resolve_task_dependencies tasks).take i).map Task.name := by
  have h1 : DepsSeenBefore [] (resolve_task_dependencies tasks) := by
    apply resolveLoop_depsSeen tasks rank hclosed hrank tasks.length tasks []
      (Nat.le_refl _) (by simp) trivial
  intro i hi d hd
  rcases depsSeen_take _ [] h1 i hi d hd with h | h
  · simp at h
  · exact h

/-- Witness for C4 on a concrete acyclic pair: a task named B that depends
on a task named A, listed in reverse order. -/
theorem resolver_respects_dependencies_witness :
    (∀ u ∈ [taskDepB, taskDepA], ∀ d ∈ u.dependencies,
      ∃ v ∈ [taskDepB, taskDepA], v.name = d) ∧
    (∀ u ∈ [taskDepB, taskDepA], ∀ d ∈ u.dependencies,
      (fun s => if s = "A" then 0 else 1) d <
        (fun s => if s = "A" then 0 else 1) u.name) ∧
    (∀ (i : Nat) (hi : i < (resolve_task_dependencies [taskDepB, taskDepA]).length),
      ∀ d ∈ ((resolve_task_dependencies [taskDepB, taskDepA]).get ⟨i, hi⟩).dependencies,
        d ∈ ((resolve_task_dependencies [taskDepB, taskDepA]).take i).map Task.name) :=
  ⟨by decide, by decide,
   resolver_respects_dependencies [taskDepB, taskDepA]
     (fun s => if s = "A" then 0 else 1) (by decide) (by decide)⟩

/- ------------------------------------------------------------------ -/
/- Validator (claims C5 and C10)                                      -/
/- ------------------------------------------------------------------ -/

theorem fileSecurityIssues_non_py (f : ScanFile) (h : f.fname.endsWith ".py" = false) :
    fileSecurityIssues f = [] := by
  simp [fileSecurityIssues, h]

theorem scan_filter_py (files : List ScanFile) :
    run_security_scan files =
      run_security_scan (files.filter (fun f => f.fname.endsWith ".py")) := by
  have h : (files.map fileSecurityIssues).flatten =
      ((files.filter (fun f => f.fname.endsWith ".py")).map fileSecurityIssues).flatten := by
    induction files with
    | nil => rfl
    | cons f fs ih =>
      by_cases hc : f.fname.endsWith ".py" = true
      · simp only [List.filter_cons, hc, if_pos, List.map_cons, List.flatten_cons, ih]
      · have hc2 : f.fname.endsWith ".py" = false := by
          cases hh : f.fname.endsWith ".py"
          · rfl
          · exact absurd hh hc
        simp only [List.filter_cons, hc2, Bool.false_eq_true, if_false, List.map_cons,
          List.flatten_cons, fileSecurityIssues_non_py f hc2, List.nil_append, ih]
  simp only [run_security_scan]
  rw [h]

theorem if_singleton_eq_nil_iff (b : Bool) (s : String) :
    (if b then [s] else []) = [] ↔ b = false := by
  cases b <;> simp

theorem fileSecurityIssues_eq_nil_iff (f : ScanFile) :
    fileSecurityIssues f = [] ↔
      (f.fname.endsWith ".py" = true → f.fileExists = true →
        ∀ c, f.content = Except.ok c →
          strContains c "eval(" = false ∧ strContains c "exec(" = false ∧
          strContains c "shell=True" = false ∧ strContains c "pickle.loads" = false) := by
  unfold fileSecurityIssues
  by_cases h1 : f.fname.endsWith ".py" = true
  · rw [if_pos h1]
    by_cases h2 : f.fileExists = true
    · rw [if_pos h2]
      cases hc : f.content with
      | error e => simp
      | ok c =>
        simp only [List.append_eq_nil, if_singleton_eq_nil_iff]
        constructor
        · intro hh _ _ c' hc'
          injection hc' with hcc
          subst hcc
          exact ⟨hh.1.1.1, hh.1.1.2, hh.1.2, hh.2⟩
        · intro h
          have h4 := h h1 h2 c rfl
          exact ⟨⟨⟨h4.1, h4.2.1⟩, h4.2.2.1⟩, h4.2.2.2⟩
    · rw [if_neg h2]
      simp [h2]
  · rw [if_neg h1]
    simp [h1]

theorem run_security_scan_passed_iff (files : List ScanFile) :
    (run_security_scan files).passed = true ↔
      ∀ f ∈ files, f.fname.endsWith ".py" = true → f.fileExists = true →
        ∀ c, f.content = Except.ok c →
          strContains c "eval(" = false ∧ strContains c "exec(" = false ∧
          strContains c "shell=True" = false ∧ strContains c "pickle.loads" = false := by
  simp only [run_security_scan]
  rw [List.isEmpty_iff, List.flatten_eq_nil_iff]
  constructor
  · intro h f hf
    exact (fileSecurityIssues_eq_nil_iff f).mp (h _ (List.mem_map_of_mem _ hf))
  · intro h l hl
    obtain ⟨f, hf, rfl⟩ := List.mem_map.mp hl
    exact (fileSecurityIssues_eq_nil_iff f).mpr (h f hf)

/-- Claim C10: the security scan inspects only tracked files whose names end
in .py (a risky construct in any other file never affects the verdict), and
security_passed is true iff no tracked .py file readable by the scan
contains any of the four risky substrings. -/
theorem security_scan_spec (files : List ScanFile) :
    run_security_scan files =
      run_security_scan (files.filter (fun f => f.fname.endsWith ".py")) ∧
    ((run_security_scan files).passed = true ↔
      ∀ f ∈ files, f.fname.endsWith ".py" = true → f.fileExists = true →
        ∀ c, f.content = Except.ok c →
          strContains c "eval(" = false ∧ strContains c "exec(" = false ∧
          strContains c "shell=True" = false ∧ strContains c "pickle.loads" = false) :=
  ⟨scan_filter_py files, run_security_scan_passed_iff files⟩

/-- The results dict of the validation phase, field by field: each verdict
and output depends only on the gate and call of its own check. -/
theorem phase_proj (cfg : ValidationConfig) (calls : CheckCalls) :
    (code_execution_validation_phase cfg calls).2 =
      { lint_passed := if cfg.autoLint && !calls.files.isEmpty then
            (match calls.lintCall with | .ok b => b | .error _ => false) else true,
        tests_passed := if cfg.autoTest && cfg.testCmd != "" then
            (match calls.testCall with | .ok o => o.isNone | .error _ => false) else true,
        security_passed := if cfg.enableSecurityScan then
            (run_security_scan calls.files).passed else true,
        lint_output := if cfg.autoLint && !calls.files.isEmpty then
            (match calls.lintCall with
             | .ok b => if b then none else some "Linting issues detected"
             | .error e => some e) else none,
        test_output := if cfg.autoTest && cfg.testCmd != "" then
            (match calls.testCall with | .ok o => o | .error e => some e) else none,
        security_output := if cfg.enableSecurityScan then
            some (run_security_scan calls.files).output else none } := by
  unfold code_execution_validation_phase initialValidationResults
  by_cases h1 : (cfg.autoLint && !calls.files.isEmpty) = true <;>
    by_cases h2 : (cfg.autoTest && cfg.testCmd != "") = true <;>
      by_cases h3 : cfg.enableSecurityScan = true <;>
        cases calls.lintCall <;> cases calls.testCall <;>
          simp [h1, h2, h3]

theorem phase_fst (cfg : ValidationConfig) (calls : CheckCalls) :
    (code_execution_validation_phase cfg calls).1 =
      ((code_execution_validation_phase cfg calls).2.lint_passed &&
       (code_execution_validation_phase cfg calls).2.tests_passed &&
       (code_execution_validation_phase cfg calls).2.security_passed) := rfl

theorem fileSecurityIssues_error (f : ScanFile) (e : String)
    (h : f.content = Except.error e) : fileSecurityIssues f = [] := by
  unfold fileSecurityIssues
  by_cases h1 : f.fname.endsWith ".py" = true
  · rw [if_pos h1]
    by_cases h2 : f.fileExists = true
    · rw [if_pos h2, h]
    · rw [if_neg h2]
  · rw [if_neg h1]

theorem scan_skips_error_file (pre rest : List ScanFile) (f : ScanFile) (e : String)
    (h : f.content = Except.error e) :
    run_security_scan (pre ++ f :: rest) = run_security_scan (pre ++ rest) := by
  have hmap : ((pre ++ f :: rest).map fileSecurityIssues).flatten =
      ((pre ++ rest).map fileSecurityIssues).flatten := by
    rw [List.map_append, List.map_append, List.map_cons, List.flatten_append,
      List.flatten_append, List.flatten_cons, fileSecurityIssues_error f e h,
      List.nil_append]
  simp only [run_security_scan]
  rw [hmap]

/-- Counterexample for C5: a raised read inside the enabled security scan
is caught and the file skipped, and security_passed stays true, so the
exception is NOT recorded as a failure of the security check; the claim
holds only for the lint and test checks. -/
theorem security_exception_not_failure_counterexample :
    fileReadError.content = Except.error "read boom" ∧
    (code_execution_validation_phase cfgScanOn callsScanError).2.security_passed = true ∧
    (code_execution_validation_phase cfgScanOn callsScanError).2.security_output =
      some "No security issues detected" ∧
    (code_execution_validation_phase cfgScanOn callsScanError).1 = true := by
  have hskip : fileSecurityIssues fileReadError = [] :=
    fileSecurityIssues_error fileReadError "read boom" rfl
  refine ⟨rfl, ?_, ?_, ?_⟩
  · rw [phase_proj]
    simp [cfgScanOn, callsScanError, run_security_scan, hskip]
  · rw [phase_proj]
    simp [cfgScanOn, callsScanError, run_security_scan, hskip]
  · rw [phase_fst, phase_proj]
    simp [cfgScanOn, callsScanError, run_security_scan, hskip]

/-- Claim C5 as amended: the overall validation verdict is false iff at
least one of the three sub-verdicts is false; an exception inside the lint
or test check is recorded as a failure of that check only (its verdict
false, its output the exception text), with the other checks still run and
their verdicts unaffected by it; an exception inside the security scan,
however, is caught per file and the file is skipped without contributing
to the verdict, so a raised read never makes security_passed false. -/
theorem validator_conjunction_and_isolation (cfg : ValidationConfig) (calls : CheckCalls) :
    ((code_execution_validation_phase cfg calls).1 = false ↔
      ((code_execution_validation_phase cfg calls).2.lint_passed = false ∨
       (code_execution_validation_phase cfg calls).2.tests_passed = false ∨
       (code_execution_validation_phase cfg calls).2.security_passed = false)) ∧
    (∀ lc : Except String Bool,
      (code_execution_validation_phase cfg { calls with lintCall := lc }).2.tests_passed =
        (code_execution_validation_phase cfg calls).2.tests_passed ∧
      (code_execution_validation_phase cfg { calls with lintCall := lc }).2.security_passed =
        (code_execution_validation_phase cfg calls).2.security_passed) ∧
    (∀ tc : Except String (Option String),
      (code_execution_validation_phase cfg { calls with testCall := tc }).2.lint_passed =
        (code_execution_validation_phase cfg calls).2.lint_passed ∧
      (code_execution_validation_phase cfg { calls with testCall := tc }).2.security_passed =
        (code_execution_validation_phase cfg calls).2.security_passed) ∧
    (∀ e : String, cfg.autoLint = true → calls.files ≠ [] →
      (code_execution_validation_phase cfg
        { calls with lintCall := Except.error e }).2.lint_passed = false ∧
      (code_execution_validation_phase cfg
        { calls with lintCall := Except.error e }).2.lint_output = some e) ∧
    (∀ e : String, cfg.autoTest = true → cfg.testCmd ≠ "" →
      (code_execution_validation_phase cfg
        { calls with testCall := Except.error e }).2.tests_passed = false ∧
      (code_execution_validation_phase cfg
        { calls with testCall := Except.error e }).2.test_output = some e) ∧
    (∀ (pre rest : List ScanFile) (f : ScanFile) (e : String),
      f.content = Except.error e →
      run_security_scan (pre ++ f :: rest) = run_security_scan (pre ++ rest)) := by
  refine ⟨?_, ?_, ?_, ?_, ?_, ?_⟩
  · rw [phase_fst]
    cases (code_execution_validation_phase cfg calls).2.lint_passed <;>
      cases (code_execution_validation_phase cfg calls).2.tests_passed <;>
        cases (code_execution_validation_phase cfg calls).2.security_passed <;> simp
  · intro lc
    rw [phase_proj cfg { calls with lintCall := lc }, phase_proj cfg calls]
    simp
  · intro tc
    rw [phase_proj cfg { calls with testCall := tc }, phase_proj cfg calls]
    simp
  · intro e hlint hne
    have hf : calls.files.isEmpty = false := by
      cases hh : calls.files.isEmpty
      · rfl
      · exact absurd (List.isEmpty_iff.mp hh) hne
    rw [phase_proj]
    simp [hlint, hf]
  · intro e htest hcmd
    have hc : (cfg.testCmd != "") = true := bne_iff_ne.mpr hcmd
    rw [phase_proj]
    simp [htest, hc]
  · intro pre rest f e h
    exact scan_skips_error_file pre rest f e h

/-- Witness for the amended C5: a raised lint command, a raised test
command, and a skipped raising file in the security scan, at concrete
configurations. -/
theorem validator_conjunction_and_isolation_witness :
    ((code_execution_validation_phase cfgValidatorW
        { callsValidatorW with lintCall := Except.error "lint boom" }).2.lint_passed = false ∧
     (code_execution_validation_phase cfgValidatorW
        { callsValidatorW with lintCall := Except.error "lint boom" }).2.lint_output =
          some "lint boom") ∧
    ((code_execution_validation_phase cfgValidatorW
        { callsValidatorW with testCall := Except.error "test boom" }).2.tests_passed = false ∧
     (code_execution_validation_phase cfgValidatorW
        { callsValidatorW with testCall := Except.error "test boom" }).2.test_output =
          some "test boom") ∧
    run_security_scan ([] ++ fileReadError :: [fileW]) = run_security_scan ([] ++ [fileW]) :=
  ⟨(validator_conjunction_and_isolation cfgValidatorW callsValidatorW).2.2.2.1 "lint boom"
      rfl (List.cons_ne_nil _ _),
   (validator_conjunction_and_isolation cfgValidatorW callsValidatorW).2.2.2.2.1 "test boom"
      rfl (by decide),
   (validator_conjunction_and_isolation cfgValidatorW callsValidatorW).2.2.2.2.2
      [] [fileW] fileReadError "read boom" rfl⟩

/- ------------------------------------------------------------------ -/
/- Planner (claims C6 and C7)                                         -/
/- ------------------------------------------------------------------ -/

/-- Counterexample for C6: on a present but unparseable response the
planner returns the single hard-coded fallback task, which differs from the
rule-based task list (here the rule-based list also carries a fix_tests
task for the high-priority test issue). -/
theorem llm_malformed_fallback_counterexample :
    llm_based_task_planning "add feature" [] [issueTestHigh]
        (PlanningResponse.text (Except.error "no json array")) ≠
      create_task_graph "add feature" [] [issueTestHigh] ∧
    llm_based_task_planning "add feature" [] [issueTestHigh]
        (PlanningResponse.text (Except.error "no json array")) =
      [fallbackParseTask "add feature"] := by
  exact ⟨by decide, rfl⟩

/-- Claim C6 as amended: an empty or absent response and a raised planning
call fall back to the rule-based task list (which may itself be empty); a
present response that fails to parse as a JSON array falls back to the
single hard-coded task built from the goal, a complete one-element and
hence never-empty list.  In every failure case the fallback is silent: the
result is one of these two complete lists, never a partial one. -/
theorem llm_planning_fallback_spec (selfTask : String) (files : List String)
    (issues : List Issue) :
    llm_based_task_planning selfTask files issues PlanningResponse.noResponse =
      create_task_graph selfTask files issues ∧
    (∀ e : String,
      llm_based_task_planning selfTask files issues (PlanningResponse.raised e) =
        create_task_graph selfTask files issues) ∧
    (∀ e : String,
      llm_based_task_planning selfTask files issues
          (PlanningResponse.text (Except.error e)) = [fallbackParseTask selfTask]) ∧
    (∀ e : String,
      llm_based_task_planning selfTask files issues
          (PlanningResponse.text (Except.error e)) ≠ []) := by
  refine ⟨rfl, fun _ => rfl, fun _ => rfl, fun _ => ?_⟩
  exact List.cons_ne_nil _ _

/-- Counterexample for C7: with the generic default goal but no files in
chat, the rule-based planner produces no improvement task at all. -/
theorem create_task_graph_counterexample :
    create_task_graph defaultGoal [] [] = [] ∧
    improvementTask ∉ create_task_graph defaultGoal [] [] := by
  exact ⟨by decide, by decide⟩

theorem filterMap_test_issues (l : List Issue)
    (h : ∀ i ∈ l, (i.itype == "test") = true) :
    l.filterMap
        (fun i => if i.itype == "test" then some (fixTestsTask i.details) else none) =
      l.map (fun i => fixTestsTask i.details) := by
  induction l with
  | nil => rfl
  | cons a l ih =>
    have ha := h a (List.mem_cons_self _ _)
    simp only [List.filterMap_cons, ha, if_pos, List.map_cons]
    rw [ih (fun i hi => h i (List.mem_cons_of_mem _ hi))]

theorem band_eq_true_iff (a b : Bool) : (a && b) = true ↔ a = true ∧ b = true := by
  cases a <;> cases b <;> simp

theorem fixTestsTask_ne_goalTask (d goal : String) : fixTestsTask d ≠ goalTask goal := by
  intro h
  have h2 : ("fix_tests" : String) = "feature_implementation" := congrArg Task.ttype h
  exact absurd h2 (by decide)

theorem improvementTask_ne_goalTask (goal : String) : improvementTask ≠ goalTask goal := by
  intro h
  have h2 : ("improvement" : String) = "feature_implementation" := congrArg Task.ttype h
  exact absurd h2 (by decide)

theorem improvementTask_ne_fixTestsTask (d : String) : improvementTask ≠ fixTestsTask d := by
  intro h
  have h2 : ("improvement" : String) = "fix_tests" := congrArg Task.ttype h
  exact absurd h2 (by decide)

/-- Claim C7 as amended: for a nonempty goal, the rule-based planner emits
exactly one goal task (priority-1 feature_implementation carrying the goal)
when the goal is not the generic default and none when it is; exactly one
fix_tests task per high-priority test issue, each being the priority-2
record named Fix critical failing tests that carries that issue's details
(the fix_tests-typed tasks of the output are exactly, up to order, one such
record per high-priority test issue); and the priority-1 improvement task
exactly when the goal is the generic default and the files-in-chat list is
nonempty. -/
theorem create_task_graph_spec (goal : String) (files : List String) (issues : List Issue)
    (hgoal : goal ≠ "") :
    (goal ≠ defaultGoal →
      (create_task_graph goal files issues).count (goalTask goal) = 1) ∧
    (goal = defaultGoal →
      goalTask goal ∉ create_task_graph goal files issues) ∧
    ((create_task_graph goal files issues).countP (fun t => t.ttype == "fix_tests") =
      (issues.filter (fun i => i.itype == "test" && i.priority == "high")).length) ∧
    (((create_task_graph goal files issues).filter
        (fun t => t.ttype == "fix_tests")).Perm
      ((issues.filter (fun i => i.itype == "test" && i.priority == "high")).map
        (fun i => fixTestsTask i.details))) ∧
    (∀ d : String, fixTestsTask d =
      { name := "Fix critical failing tests", ttype := "fix_tests", priority := 2,
        details := d, dependencies := [], estimated_effort := none, file := none,
        retry_count := none }) ∧
    (improvementTask ∈ create_task_graph goal files issues ↔
      (goal = defaultGoal ∧ files ≠ [])) := by
  have hperm := sortByPrio_perm
    ((if goal != "" && goal != defaultGoal then [goalTask goal] else []) ++
      (issues.filter (fun i => i.itype == "test" && i.priority == "high")).filterMap
        (fun i => if i.itype == "test" then some (fixTestsTask i.details) else none) ++
      (if goal == defaultGoal && !files.isEmpty then [improvementTask] else []))
  have hmapeq := filterMap_test_issues
    (issues.filter (fun i => i.itype == "test" && i.priority == "high"))
    (fun i hi => by
      have h2 := (List.mem_filter.mp hi).2
      exact ((band_eq_true_iff _ _).mp h2).1)
  refine ⟨?_, ?_, ?_, ?_, ?_, ?_⟩
  · intro hnd
    have hcond : (goal != "" && goal != defaultGoal) = true :=
      (band_eq_true_iff _ _).mpr ⟨bne_iff_ne.mpr hgoal, bne_iff_ne.mpr hnd⟩
    have hcond2 : (goal == defaultGoal) = false := by
      cases hh : goal == defaultGoal
      · rfl
      · exact absurd (beq_iff_eq.mp hh) hnd
    unfold create_task_graph
    rw [(sortByPrio_perm _).count_eq, hcond, hcond2]
    simp only [if_pos, Bool.false_and, Bool.false_eq_true, if_false, List.append_nil,
      List.count_append, hmapeq]
    have hz : ((issues.filter (fun i => i.itype == "test" && i.priority == "high")).map
        (fun i => fixTestsTask i.details)).count (goalTask goal) = 0 := by
      rw [List.count_eq_zero]
      intro hmem
      obtain ⟨i, _, heq⟩ := List.mem_map.mp hmem
      exact fixTestsTask_ne_goalTask i.details goal heq
    rw [hz]
    simp
  · intro hd
    have hcond : (goal != "" && goal != defaultGoal) = false := by
      cases hh : goal != "" && goal != defaultGoal
      · rfl
      · exact absurd hd (bne_iff_ne.mp ((band_eq_true_iff _ _).mp hh).2)
    unfold create_task_graph
    rw [(sortByPrio_perm _).mem_iff, hcond]
    simp only [Bool.false_eq_true, if_false, List.nil_append, List.mem_append, hmapeq]
    rintro (hmem | hmem)
    · obtain ⟨i, _, heq⟩ := List.mem_map.mp hmem
      exact fixTestsTask_ne_goalTask i.details goal heq
    · by_cases hc : (goal == defaultGoal && !files.isEmpty) = true
      · rw [if_pos hc] at hmem
        rcases List.mem_singleton.mp hmem with h
        exact improvementTask_ne_goalTask goal h.symm
      · rw [if_neg hc] at hmem
        simp at hmem
  · unfold create_task_graph
    rw [(sortByPrio_perm _).countP_eq]
    rw [List.countP_append, List.countP_append, hmapeq]
    have hp1 : (if goal != "" && goal != defaultGoal then [goalTask goal]
        else []).countP (fun t => t.ttype == "fix_tests") = 0 := by
      by_cases hc : (goal != "" && goal != defaultGoal) = true
      · rw [if_pos hc]
        simp [goalTask, List.countP_cons]
      · rw [if_neg hc]
        rfl
    have hp3 : (if goal == defaultGoal && !files.isEmpty then [improvementTask]
        else []).countP (fun t => t.ttype == "fix_tests") = 0 := by
      by_cases hc : (goal == defaultGoal && !files.isEmpty) = true
      · rw [if_pos hc]
        simp [improvementTask, List.countP_cons]
      · rw [if_neg hc]
        rfl
    have hp2 : ((issues.filter (fun i => i.itype == "test" && i.priority == "high")).map
        (fun i => fixTestsTask i.details)).countP (fun t => t.ttype == "fix_tests") =
        (issues.filter (fun i => i.itype == "test" && i.priority == "high")).length := by
      have hlen : ((issues.filter (fun i => i.itype == "test" && i.priority == "high")).map
          (fun i => fixTestsTask i.details)).length =
          (issues.filter (fun i => i.itype == "test" && i.priority == "high")).length :=
        List.length_map _ _
      rw [← hlen, List.countP_eq_length]
      intro a ha
      obtain ⟨i, _, rfl⟩ := List.mem_map.mp ha
      rfl
    rw [hp1, hp2, hp3]
    simp [List.length_map]
  · unfold create_task_graph
    refine List.Perm.trans (List.Perm.filter _ (sortByPrio_perm _)) ?_
    rw [hmapeq, List.filter_append, List.filter_append]
    have h1 : (if goal != "" && goal != defaultGoal then [goalTask goal] else []).filter
        (fun t => t.ttype == "fix_tests") = [] := by
      by_cases hc : (goal != "" && goal != defaultGoal) = true
      · rw [if_pos hc]
        simp [List.filter_cons, goalTask]
      · rw [if_neg hc]
        rfl
    have h3 : (if goal == defaultGoal && !files.isEmpty then [improvementTask]
        else []).filter (fun t => t.ttype == "fix_tests") = [] := by
      by_cases hc : (goal == defaultGoal && !files.isEmpty) = true
      · rw [if_pos hc]
        simp [List.filter_cons, improvementTask]
      · rw [if_neg hc]
        rfl
    have h2 : ((issues.filter (fun i => i.itype == "test" && i.priority == "high")).map
        (fun i => fixTestsTask i.details)).filter (fun t => t.ttype == "fix_tests") =
        (issues.filter (fun i => i.itype == "test" && i.priority == "high")).map
          (fun i => fixTestsTask i.details) := by
      rw [List.filter_eq_self]
      intro a ha
      obtain ⟨i, _, rfl⟩ := List.mem_map.mp ha
      rfl
    rw [h1, h2, h3, List.nil_append, List.append_nil]
  · intro d
    rfl
  · unfold create_task_graph
    rw [(sortByPrio_perm _).mem_iff]
    simp only [List.mem_append, hmapeq]
    constructor
    · rintro ((hmem | hmem) | hmem)
      · by_cases hc : (goal != "" && goal != defaultGoal) = true
        · rw [if_pos hc] at hmem
          exact absurd (List.mem_singleton.mp hmem) (improvementTask_ne_goalTask goal)
        · rw [if_neg hc] at hmem
          simp at hmem
      · obtain ⟨i, _, heq⟩ := List.mem_map.mp hmem
        exact absurd heq.symm (improvementTask_ne_fixTestsTask i.details)
      · by_cases hc : (goal == defaultGoal && !files.isEmpty) = true
        · obtain ⟨h1, h2⟩ := (band_eq_true_iff _ _).mp hc
          refine ⟨beq_iff_eq.mp h1, ?_⟩
          intro hnil
          rw [hnil] at h2
          simp at h2
        · rw [if_neg hc] at hmem
          simp at hmem
    · rintro ⟨h1, h2⟩
      have hf : files.isEmpty = false := by
        cases hh : files.isEmpty
        · rfl
        · exact absurd (List.isEmpty_iff.mp hh) h2
      have hc : (goal == defaultGoal && !files.isEmpty) = true :=
        (band_eq_true_iff _ _).mpr ⟨beq_iff_eq.mpr h1, by rw [hf]; rfl⟩
      right
      rw [if_pos hc]
      exact List.mem_singleton.mpr rfl

/-- Witness for C7 at a nonempty non-default goal with one high-priority
test issue. -/
theorem create_task_graph_spec_witness :
    ("add feature" : String) ≠ "" ∧
    (create_task_graph "add feature" [] [issueTestHigh]).count (goalTask "add feature") = 1 ∧
    (create_task_graph "add feature" [] [issueTestHigh]).countP
        (fun t => t.ttype == "fix_tests") =
      ([issueTestHigh].filter (fun i => i.itype == "test" && i.priority == "high")).length ∧
    ((create_task_graph "add feature" [] [issueTestHigh]).filter
        (fun t => t.ttype == "fix_tests")).Perm
      (([issueTestHigh].filter (fun i => i.itype == "test" && i.priority == "high")).map
        (fun i => fixTestsTask i.details)) ∧
    fixTestsTask "2 tests failed" =
      { name := "Fix critical failing tests", ttype := "fix_tests", priority := 2,
        details := "2 tests failed", dependencies := [], estimated_effort := none,
        file := none, retry_count := none } ∧
    (improvementTask ∈ create_task_graph "add feature" [] [issueTestHigh] ↔
      ("add feature" = defaultGoal ∧ ([] : List String) ≠ [])) :=
  ⟨by decide,
   (create_task_graph_spec "add feature" [] [issueTestHigh] (by decide)).1 (by decide),
   (create_task_graph_spec "add feature" [] [issueTestHigh] (by decide)).2.2.1,
   (create_task_graph_spec "add feature" [] [issueTestHigh] (by decide)).2.2.2.1,
   (create_task_graph_spec "add feature" [] [issueTestHigh] (by decide)).2.2.2.2.1
     "2 tests failed",
   (create_task_graph_spec "add feature" [] [issueTestHigh] (by decide)).2.2.2.2.2⟩

/- ------------------------------------------------------------------ -/
/- Orchestrator loop (claims C1, C2, C8, C9)                          -/
/- ------------------------------------------------------------------ -/

/-- Counterexample for C1: with B depending on A and the edit call for A
raising, A moves to Failed and B is nevertheless selected on the next
iteration (its dependency A is absent from the empty Completed set), where
it executes, validates and completes; the loop then exits through the
empty-queue break at iteration 3, not through budget exhaustion. -/
theorem dependent_task_selected_counterexample :
    get_next_task [taskExecA, taskExecB] [] [taskExecA] = some 1 ∧
    taskExecB.dependencies = ["A"] ∧
    (([] : List Task).map Task.name) = [] ∧
    (runAgent envFailFirstExec cfgAllOff 10 (some [taskExecA, taskExecB])).2.completed_tasks =
      [taskExecB] ∧
    (runAgent envFailFirstExec cfgAllOff 10 (some [taskExecA, taskExecB])).2.failed_tasks =
      [taskExecA] ∧
    (runAgent envFailFirstExec cfgAllOff 10 (some [taskExecA, taskExecB])).2.current_iteration =
      3 := by
  exact ⟨by decide, by decide, rfl, by decide, by decide, by decide⟩

/-- Claim C1 as amended: the orchestrator selects the first task of the
resolved order that is in neither the Completed nor the Failed list, and
consults dependencies in no way; when no such task exists the selection
returns none.  In the two-task scenario, after A fails, B is therefore
selected on the next iteration and can complete. -/
theorem next_task_selection (graph completed failed : List Task) :
    (∀ i : Nat, get_next_task graph completed failed = some i →
      ∃ h : i < graph.length,
        graph.get ⟨i, h⟩ ∉ completed ∧ graph.get ⟨i, h⟩ ∉ failed ∧
        ∀ (j : Nat) (hj : j < graph.length), j < i →
          (graph.get ⟨j, hj⟩ ∈ completed ∨ graph.get ⟨j, hj⟩ ∈ failed)) ∧
    (get_next_task graph completed failed = none →
      ∀ t ∈ graph, t ∈ completed ∨ t ∈ failed) := by
  induction graph with
  | nil =>
    constructor
    · intro i hi
      simp [get_next_task] at hi
    · intro _ t ht
      simp at ht
  | cons a g ih =>
    have hterm : ∀ hcc : completed.contains a = false, ∀ hfc : failed.contains a = false,
        (!completed.contains a && !failed.contains a) = true := by
      intro hcc hfc
      rw [hcc, hfc]
      rfl
    constructor
    · intro i hi
      simp only [get_next_task] at hi
      by_cases hc : (!completed.contains a && !failed.contains a) = true
      · rw [if_pos hc] at hi
        injection hi with hi0
        subst hi0
        obtain ⟨h1, h2⟩ := (band_eq_true_iff _ _).mp hc
        refine ⟨Nat.succ_pos _, ?_, ?_, ?_⟩
        · intro hmem
          have hcc : completed.contains a = true := List.elem_iff.mpr hmem
          rw [hcc] at h1
          simp at h1
        · intro hmem
          have hfc : failed.contains a = true := List.elem_iff.mpr hmem
          rw [hfc] at h2
          simp at h2
        · intro j hj hji
          exact absurd hji (Nat.not_lt_zero j)
      · rw [if_neg hc] at hi
        cases hg : get_next_task g completed failed with
        | none =>
          rw [hg] at hi
          simp at hi
        | some k =>
          rw [hg] at hi
          simp only [Option.map] at hi
          injection hi with hik
          subst hik
          obtain ⟨hk, hk1, hk2, hk3⟩ := ih.1 k hg
          refine ⟨Nat.succ_lt_succ hk, hk1, hk2, ?_⟩
          intro j hj hji
          cases j with
          | zero =>
            cases hcc : completed.contains a with
            | true => exact Or.inl (List.elem_iff.mp hcc)
            | false =>
              cases hfc : failed.contains a with
              | true => exact Or.inr (List.elem_iff.mp hfc)
              | false => exact absurd (hterm hcc hfc) hc
          | succ j' =>
            have hj' : j' < g.length := Nat.lt_of_succ_lt_succ hj
            have hji' : j' < k := Nat.lt_of_succ_lt_succ hji
            exact hk3 j' hj' hji'
    · intro hnone t ht
      simp only [get_next_task] at hnone
      by_cases hc : (!completed.contains a && !failed.contains a) = true
      · rw [if_pos hc] at hnone
        simp at hnone
      · rw [if_neg hc] at hnone
        cases hg : get_next_task g completed failed with
        | some k =>
          rw [hg] at hnone
          simp at hnone
        | none =>
          rcases List.mem_cons.mp ht with h | h
          · rw [h]
            cases hcc : completed.contains a with
            | true => exact Or.inl (List.elem_iff.mp hcc)
            | false =>
              cases hfc : failed.contains a with
              | true => exact Or.inr (List.elem_iff.mp hfc)
              | false => exact absurd (hterm hcc hfc) hc
          · exact ih.2 hg t h

/-- Witness for the amended C1: in the two-task scenario with A failed, the
selection returns index 1, the task B, whose dependency A is not completed. -/
theorem next_task_selection_witness :
    ∃ h : 1 < ([taskExecA, taskExecB]).length,
      ([taskExecA, taskExecB]).get ⟨1, h⟩ ∉ ([] : List Task) ∧
      ([taskExecA, taskExecB]).get ⟨1, h⟩ ∉ [taskExecA] ∧
      ∀ (j : Nat) (hj : j < ([taskExecA, taskExecB]).length), j < 1 →
        (([taskExecA, taskExecB]).get ⟨j, hj⟩ ∈ ([] : List Task) ∨
         ([taskExecA, taskExecB]).get ⟨j, hj⟩ ∈ [taskExecA]) :=
  (next_task_selection [taskExecA, taskExecB] [] [taskExecA]).1 1 (by decide)

/-- Claim C2 is right and the code is wrong: the retry counter is read with
getattr on a dict, which always yields the default 0, so a task failing
validation on four consecutive iterations still has retry_count 1, is never
moved to the Failed set, and keeps being rescheduled; the abandon branch is
unreachable, contradicting the comment (allow up to 2 retries) and the
maximum-retries log message in the source. -/
theorem retry_cap_never_triggers :
    (runAgent envTestsFail cfgTestsOn 4 (some [taskRetry])).2.failed_tasks = [] ∧
    (runAgent envTestsFail cfgTestsOn 4 (some [taskRetry])).2.completed_tasks = [] ∧
    (runAgent envTestsFail cfgTestsOn 4 (some [taskRetry])).2.task_graph =
      [{ taskRetry with retry_count := some 1 }] ∧
    getattrRetryCount { taskRetry with retry_count := some 1 } = 0 := by
  exact ⟨by decide, by decide, by decide, rfl⟩

/-- Claim C8: the boolean returned by run is true iff at least one task
completed and, whenever a ValidationResult was recorded, the last recorded
one has tests_passed and security_passed both true; the formula never
consults lint_passed. -/
theorem run_success_formula (env : RunEnv) (cfg : ValidationConfig) (n : Nat)
    (planned : Option (List Task)) :
    (runAgent env cfg n planned).1 = true ↔
      ((runAgent env cfg n planned).2.completed_tasks ≠ [] ∧
       ∀ vr, (runAgent env cfg n planned).2.validation_results = some vr →
         (vr.tests_passed = true ∧ vr.security_passed = true)) := by
  cases planned with
  | none => simp [runAgent, initState]
  | some graph =>
    simp only [runAgent]
    by_cases hg : graph.isEmpty = true
    · rw [if_pos hg]
      simp [initState]
    · rw [if_neg hg]
      simp only [Bool.and_eq_true]
      constructor
      · rintro ⟨h1, h2⟩
        constructor
        · intro hnil
          rw [hnil] at h1
          simp at h1
        · intro vr hvr
          rw [hvr] at h2
          exact (band_eq_true_iff _ _).mp h2
      · rintro ⟨h1, h2⟩
        constructor
        · cases hh : (run_loop env cfg (initState graph) n).completed_tasks.isEmpty with
          | false => rfl
          | true => exact absurd (List.isEmpty_iff.mp hh) h1
        · cases hvr : (run_loop env cfg (initState graph) n).validation_results with
          | none => rfl
          | some vr => exact (band_eq_true_iff _ _).mpr (h2 vr hvr)

/-- Witness for C8 at a concrete all-succeeding run of one task. -/
theorem run_success_formula_witness :
    (runAgent envAllOk cfgAllOff 5 (some [taskExecA])).1 = true ↔
      ((runAgent envAllOk cfgAllOff 5 (some [taskExecA])).2.completed_tasks ≠ [] ∧
       ∀ vr, (runAgent envAllOk cfgAllOff 5 (some [taskExecA])).2.validation_results =
           some vr →
         (vr.tests_passed = true ∧ vr.security_passed = true)) :=
  run_success_formula envAllOk cfgAllOff 5 (some [taskExecA])

/-- Counterexample for C9: a validation failure whose only non-null
diagnostic payload is the empty string yields the stored error context
some empty-string: the non-null test payload is dropped, because the source
keeps a payload only when it is truthy, that is non-null and non-empty. -/
theorem error_context_empty_payload_counterexample :
    (handle_validation_failure (initState [taskRetry]) 0 vdEmptyTestFail).last_error_context =
      some "" ∧
    vdEmptyTestFail.test_output ≠ none := by
  exact ⟨by decide, by decide⟩

theorem payloadEntry (lab : String) (o : Option String) :
    (if truthyStrOpt o then [lab ++ o.getD ""] else []) =
      (match o with
       | some s => if s = "" then [] else [lab ++ s]
       | none => []) := by
  cases o with
  | none => rfl
  | some s =>
    simp only [truthyStrOpt, Option.getD]
    by_cases hs : s = ""
    · rw [if_pos hs, if_neg]
      rw [hs]
      simp
    · rw [if_neg hs, if_pos (bne_iff_ne.mpr hs)]

theorem errorMessages_eq (vd : ValidationResults) :
    errorMessages vd =
      ([("Lint errors: ", vd.lint_output), ("Test failures: ", vd.test_output),
        ("Security issues: ", vd.security_output)].flatMap
        (fun lp => match lp.2 with
          | some s => if s = "" then [] else [lp.1 ++ s]
          | none => [])) := by
  simp only [errorMessages, List.flatMap_cons, List.flatMap_nil]
  rw [← payloadEntry "Lint errors: " vd.lint_output,
      ← payloadEntry "Test failures: " vd.test_output,
      ← payloadEntry "Security issues: " vd.security_output]
  simp [List.append_assoc]

/-- Claim C9 as amended: on every validation failure the stored error
context is the pipe-joined list of the labelled diagnostic payloads that
are non-null AND non-empty (an empty-string payload is dropped even though
it is non-null); on validation success the run loop clears the stored
error context; and the failure branch of an iteration routes the task
through the feedback handler. -/
theorem error_context_spec (st : AgentState) (i : Nat) (vd : ValidationResults)
    (env : RunEnv) (cfg : ValidationConfig) :
    ((handle_validation_failure st i vd).last_error_context =
      some (String.intercalate " | "
        ([("Lint errors: ", vd.lint_output), ("Test failures: ", vd.test_output),
          ("Security issues: ", vd.security_output)].flatMap
          (fun lp => match lp.2 with
            | some s => if s = "" then [] else [lp.1 ++ s]
            | none => [])))) ∧
    ((get_next_task st.task_graph st.completed_tasks st.failed_tasks = some i) →
      env.execOutcome (st.current_iteration + 1) = Except.ok () →
      (code_execution_validation_phase cfg (env.calls (st.current_iteration + 1))).1 = true →
      (run_iteration env cfg st).1.last_error_context = none) ∧
    ((get_next_task st.task_graph st.completed_tasks st.failed_tasks = some i) →
      env.execOutcome (st.current_iteration + 1) = Except.ok () →
      (code_execution_validation_phase cfg (env.calls (st.current_iteration + 1))).1 = false →
      (run_iteration env cfg st).1 =
        handle_validation_failure
          { st with current_iteration := st.current_iteration + 1,
                    validation_results :=
                      some (code_execution_validation_phase cfg
                        (env.calls (st.current_iteration + 1))).2 }
          i
          (code_execution_validation_phase cfg (env.calls (st.current_iteration + 1))).2) := by
  refine ⟨?_, ?_, ?_⟩
  · rw [← errorMessages_eq]
    simp [handle_validation_failure, getattrRetryCount]
  · intro hsel hexec hval
    simp [run_iteration, hsel, hexec, hval]
  · intro hsel hexec hval
    simp [run_iteration, hsel, hexec, hval]

/-- Witness for the amended C9: the content equation at the concrete failed
validation, and the clearing of the context after a concrete successful
iteration. -/
theorem error_context_spec_witness :
    ((handle_validation_failure (initState [taskRetry]) 0 vdEmptyTestFail).last_error_context =
      some (String.intercalate " | "
        ([("Lint errors: ", vdEmptyTestFail.lint_output),
          ("Test failures: ", vdEmptyTestFail.test_output),
          ("Security issues: ", vdEmptyTestFail.security_output)].flatMap
          (fun lp => match lp.2 with
            | some s => if s = "" then [] else [lp.1 ++ s]
            | none => [])))) ∧
    (run_iteration envAllOk cfgAllOff (initState [taskRetry])).1.last_error_context = none :=
  ⟨(error_context_spec (initState [taskRetry]) 0 vdEmptyTestFail envAllOk cfgAllOff).1,
   (error_context_spec (initState [taskRetry]) 0 vdEmptyTestFail envAllOk cfgAllOff).2.1
     (by decide) rfl (by decide)⟩

/-- Witness for the amended C6 at a concrete goal and issue list. -/
theorem llm_planning_fallback_spec_witness :
    llm_based_task_planning "add feature" [] [issueTestHigh] PlanningResponse.noResponse =
      create_task_graph "add feature" [] [issueTestHigh] ∧
    llm_based_task_planning "add feature" [] [issueTestHigh]
        (PlanningResponse.text (Except.error "bad")) = [fallbackParseTask "add feature"] ∧
    llm_based_task_planning "add feature" [] [issueTestHigh]
        (PlanningResponse.text (Except.error "bad")) ≠ [] :=
  ⟨(llm_planning_fallback_spec "add feature" [] [issueTestHigh]).1,
   (llm_planning_fallback_spec "add feature" [] [issueTestHigh]).2.2.1 "bad",
   (llm_planning_fallback_spec "add feature" [] [issueTestHigh]).2.2.2 "bad"⟩

/-- Witness for C10 at a concrete file set: a non-Python file with a risky
construct and a clean Python file. -/
theorem security_scan_spec_witness :
    run_security_scan
        [{ fname := "notes.txt", fileExists := true, content := Except.ok "eval(x)" }, fileW] =
      run_security_scan
        (([{ fname := "notes.txt", fileExists := true, content := Except.ok "eval(x)" },
           fileW]).filter (fun f => f.fname.endsWith ".py")) ∧
    ((run_security_scan
        [{ fname := "notes.txt", fileExists := true, content := Except.ok "eval(x)" },
         fileW]).passed = true ↔
      ∀ f ∈ [{ fname := "notes.txt", fileExists := true, content := Except.ok "eval(x)" },
             fileW],
        f.fname.endsWith ".py" = true → f.fileExists = true →
        ∀ c, f.content = Except.ok c →
          strContains c "eval(" = false ∧ strContains c "exec(" = false ∧
          strContains c "shell=True" = false ∧ strContains c "pickle.loads" = false) :=
  security_scan_spec
    [{ fname := "notes.txt", fileExists := true, content := Except.ok "eval(x)" }, fileW]

end GeniusMode
